import Mathlib

/-
Verification of the import-removal rewriter (`remove_unused_imports.py`).

The program is a line-oriented text transformer.  We embed it shallowly:
a file is a `List String` of newline-terminated lines, and every Python
string primitive the program uses (`strip`, `split`, `endswith`, `in`,
`sorted`, set difference, the two regexes) is modelled by an executable
Lean function on `List Char` / `String`.  Python code that can raise
(`list.pop` out of range, `[1]` on a one-element split, a scan running
past the end of the buffer, `re.match(...)` returning `None` before
`.groups`) is modelled with `Option`: `none` is an uncaught exception.

Line numbers from diagnostics are 1-based; buffer indices are 0-based
naturals.  `line_adjustment` is a natural number (in the source it only
ever grows by non-negative amounts).  The loop's index computation
`line_num - 1 - line_adjustment` is guarded: a value that would be
negative in Python (which would silently index from the end of the list)
is modelled as a failure, since every claim concerns the in-range regime.
-/

/-! ### Python string primitives -/

/-- The character class of Python's `str.strip()` / regex `\s`
(space, tab, newline, carriage return, vertical tab, form feed). -/
def pyIsSpace (c : Char) : Bool :=
  c == ' ' || c == '\t' || c == '\n' || c == '\r' ||
    c == Char.ofNat 11 || c == Char.ofNat 12

/-- Drop characters satisfying `p` from both ends of a character list. -/
def dropEnds (p : Char → Bool) (cs : List Char) : List Char :=
  ((cs.dropWhile p).reverse.dropWhile p).reverse

/-- Python `s.strip()`. -/
def pyStrip (s : String) : String := ⟨dropEnds pyIsSpace s.data⟩

/-- Python `s.strip(chars)`: remove any character of `cut` from both ends. -/
def stripChars (cut : List Char) (s : String) : String :=
  ⟨dropEnds (fun c => cut.contains c) s.data⟩

/-- Python `s.endswith(suffix)`. -/
def py_endswith (s : String) (suf : String) : Bool :=
  suf.data.isSuffixOf s.data

/-- Python `c in s` for a single character. -/
def pyHasChar (s : String) (c : Char) : Bool := s.data.contains c

/-- Substring split, fuelled so that it reduces in the kernel.
`splitOnFuel s0 srest fuel cs` splits `cs` on the separator `s0 :: srest`
exactly like Python `str.split(sep)` (left to right, non-overlapping),
provided `fuel ≥ cs.length`. -/
def splitOnFuel (s0 : Char) (srest : List Char) : Nat → List Char → List (List Char)
  | _, [] => [[]]
  | 0, cs => [cs]
  | fuel + 1, c :: rest =>
    if (s0 :: srest).isPrefixOf (c :: rest) then
      [] :: splitOnFuel s0 srest fuel (rest.drop srest.length)
    else
      match splitOnFuel s0 srest fuel rest with
      | g :: gs => (c :: g) :: gs
      | [] => [[c]]

/-- Python `s.split(sep)` for a non-empty separator. -/
def strSplitOn (sep : String) (s : String) : List String :=
  match sep.data with
  | [] => [s]
  | c :: cs => (splitOnFuel c cs s.data.length s.data).map (fun l => ⟨l⟩)

/-- Python `sep.join(ss)`. -/
def joinSep (sep : String) : List String → String
  | [] => ""
  | [x] => x
  | x :: y :: xs => x ++ sep ++ joinSep sep (y :: xs)

/-- Concatenation of a list of strings (`''.join`, `writelines` output). -/
def strJoin : List String → String
  | [] => ""
  | x :: xs => x ++ strJoin xs

/-! ### Python string comparison and `sorted` -/

/-- Python `<` on strings: lexicographic by code point. -/
def strLtB : List Char → List Char → Bool
  | [], [] => false
  | [], _ :: _ => true
  | _ :: _, [] => false
  | a :: as, b :: bs =>
    if a.toNat < b.toNat then true
    else if b.toNat < a.toNat then false
    else strLtB as bs

/-- Python `a <= b` on strings. -/
def pyStrLe (a b : String) : Bool := !(strLtB b.data a.data)

/-- Python `sorted` on a list of strings (insertion sort with `pyStrLe`;
on duplicate-free input this is exactly Python's result). -/
def sortStrings (l : List String) : List String :=
  List.insertionSort (fun a b => pyStrLe a b = true) l

/-- Python `sorted` on a list of naturals. -/
def sortNats (l : List Nat) : List Nat :=
  List.insertionSort (fun a b => a ≤ b) l

/-! ### Diagnostic parser (`parse_pyflake_unused_import_error`) -/

/-- `re.match(r"'(.*)'.*", e)`: if `e` starts with a quote and has a second
quote on the same line, return the (greedy) group between the first quote
and the last quote before any newline; otherwise no match. -/
def unused_module_match (e : String) : Option String :=
  match e.data with
  | '\'' :: rest =>
    let line1 := rest.takeWhile (fun c => !(c == '\n'))
    if line1.contains '\'' then
      some ⟨((line1.reverse.dropWhile (fun c => !(c == '\''))).drop 1).reverse⟩
    else none
  | _ => none

/-- Whether a diagnostic suffix carries a single-quoted module name,
i.e. whether `UNUSED_MODULE_NAME_RE` matches it. -/
def has_single_quoted_name (e : String) : Bool :=
  match e.data with
  | '\'' :: rest => (rest.takeWhile (fun c => !(c == '\n'))).contains '\''
  | _ => false

/-- `parse_pyflake_unused_import_error`: split the diagnostic on `:`;
a line with any other number of fields raises (`none`); the quoted module
name is extracted from the stripped third field, `None` when absent. -/
def parse_pyflake_unused_import_error (error_line : String) :
    Option (String × String × Option String) :=
  match strSplitOn ":" error_line with
  | [path, line_num, error] => some (path, line_num, unused_module_match (pyStrip error))
  | _ => none

/-! ### `get_modules_to_keep` -/

/-- `sorted(list(set(imports) - set(unused_imports)))`. -/
def get_modules_to_keep (imports unused_imports : List String) : List String :=
  sortStrings ((imports.filter (fun m => !(unused_imports.contains m))).dedup)

/-! ### `split_single_line_multi_imports` -/

/-- `_clean_line`: `re.sub(r'[\\\s]', '', line)` — delete every backslash
and whitespace character. -/
def clean_line (line : String) : String :=
  ⟨line.data.filter (fun c => !(c == '\\' || pyIsSpace c))⟩

/-- `split_single_line_multi_imports`: take the text after the first
occurrence of `import` (raising — `none` — when `import` does not occur),
strip it, split on commas, strip the pieces, drop empty pieces. -/
def split_single_line_multi_imports (line : String) : Option (List String) :=
  match (strSplitOn "import" line).get? 1 with
  | none => none
  | some s =>
    some ((((strSplitOn "," (pyStrip s)).map pyStrip).filter (fun x => !(x == ""))))

/-! ### `build_multiline_import` -/

/-- `build_multiline_import`: with no `from`-prefix emit a single bare
`import a, b` line (a parenthesized bare import is invalid syntax);
otherwise emit the canonical parenthesized block, each inner line
`padding + 4 spaces + symbol + comma`. -/
def build_multiline_import (padding base_import : String) (imports : List String) : String :=
  if base_import == "" then
    "import " ++ joinSep ", " (sortStrings imports) ++ "\n"
  else
    padding ++ base_import ++ "import (\n" ++
      strJoin ((sortStrings imports).map (fun i => padding ++ "    " ++ i ++ ",\n")) ++
      padding ++ ")\n"

/-! ### Import groupers -/

/-- The forward scan of `group_multiline_imports`, over the lines after the
statement's first line, carrying the running index.  Each line contributes
its stripped, comma-stripped content until a line stripping to `)` is met;
running off the end of the buffer is Python's `IndexError` (`none`). -/
def gmi_scan : List String → Nat → Option (List String × Nat)
  | [], _ => none
  | l :: rest, i =>
    if pyStrip l == ")" then some ([], i)
    else
      match gmi_scan rest (i + 1) with
      | none => none
      | some (g, e) => some (stripChars [','] (pyStrip l) :: g, e)

/-- `group_multiline_imports`: scan from `start_index + 1` for the closing
parenthesis line; return the collected symbols and its index. -/
def group_multiline_imports (start_index : Nat) (file_lines : List String) :
    Option (List String × Nat) :=
  gmi_scan (file_lines.drop (start_index + 1)) (start_index + 1)

/-- The forward scan of `group_escaped_imports` over continuation lines:
a line still containing a backslash contributes its cleaned, comma-stripped
content; the first line without one contributes its comma-stripped content
and ends the span.  Running off the end is `IndexError` (`none`). -/
def ge_scan : List String → Nat → Option (List String × Nat)
  | [], _ => none
  | l :: rest, i =>
    if pyHasChar (pyStrip l) '\\' then
      match ge_scan rest (i + 1) with
      | none => none
      | some (g, e) => some (stripChars [','] (clean_line (pyStrip l)) :: g, e)
    else some ([stripChars [','] (pyStrip l)], i)

/-- `group_escaped_imports`: symbols of the first (backslash-continued)
line come from cleaning it and splitting after `import`; continuation
lines are scanned until one without a backslash ends the span. -/
def group_escaped_imports (start_index : Nat) (file_lines : List String) :
    Option (List String × Nat) :=
  match file_lines.get? start_index with
  | none => none
  | some first =>
    match split_single_line_multi_imports (clean_line first) with
    | none => none
    | some mods =>
      match ge_scan (file_lines.drop (start_index + 1)) (start_index + 1) with
      | none => none
      | some (g, e) => some (mods ++ g, e)

/-! ### The `BASE_IMPORT_RE` and `SINGLE_IMPORT_RE` regexes -/

/-- Position of the last occurrence of `import ` (the occurrence the greedy
`.*` of `(from .*)?` backtracks to) inside the first line of `cs`,
restricted to positions ≥ 5 so that `from ` fits before it. -/
def lastImportPos (cs : List Char) : Option Nat :=
  ((List.range cs.length).filter
    (fun p => decide (5 ≤ p) && "import ".data.isPrefixOf (cs.drop p))).getLast?

/-- `re.match(BASE_IMPORT_RE, line)` with `BASE_IMPORT_RE =
r'(\s*)(from .*)?import .*'`, returning `.groups('')`: the leading
whitespace and the `from <module> ` prefix (empty when absent); `none`
when the regex does not match (Python would then fail on `.groups`). -/
def base_import_match (line : String) : Option (String × String) :=
  let pad := line.data.takeWhile pyIsSpace
  let rest := line.data.drop pad.length
  let restLine := rest.takeWhile (fun c => !(c == '\n'))
  if "from ".data.isPrefixOf rest then
    match lastImportPos restLine with
    | some p => some (⟨pad⟩, ⟨rest.take p⟩)
    | none => none
  else if "import ".data.isPrefixOf rest then some (⟨pad⟩, "")
  else none

/-- Whether `(.*as\s)?<m>$` matches the tail `b` of the statement:
either `b` is exactly the symbol, or it ends with the symbol preceded by
`as` and one whitespace character (with no newline crossed). -/
def importTailMatch (b : List Char) (m : List Char) : Bool :=
  (b == m) ||
  (m.isSuffixOf b &&
    (match (b.take (b.length - m.length)).reverse with
     | w :: 's' :: 'a' :: c => pyIsSpace w && !(c.contains '\n')
     | _ => false))

/-- `re.match(SINGLE_IMPORT_RE % symbol, s)` with `SINGLE_IMPORT_RE =
r'(from .*|^)import (.*as\s)?%s$'`, for a stripped line `s` and a literal
symbol name `m` (names with regex metacharacters are outside the modelled
domain). -/
def matches_single_import (s : String) (m : String) : Bool :=
  let cs := s.data
  ("import ".data.isPrefixOf cs && importTailMatch (cs.drop 7) m.data) ||
  ("from ".data.isPrefixOf cs &&
    (List.range cs.length).any (fun p =>
      decide (5 ≤ p) && "import ".data.isPrefixOf (cs.drop p) &&
      !(((cs.take p).drop 5).contains '\n') && importTailMatch (cs.drop (p + 7)) m.data))

/-! ### Edit handlers -/

/-- Python `list.insert(i, x)` (clamping, never raising). -/
def pyInsert (i : Nat) (x : String) (l : List String) : List String :=
  l.take i ++ x :: l.drop i

/-- `handle_single_line_imports`: pop the statement's line
(`IndexError` — `none` — when out of range) and count one removed line. -/
def handle_single_line_imports (index : Nat) (line_adjustment : Nat)
    (file_lines : List String) : Option (Nat × List String) :=
  if index < file_lines.length then
    some (line_adjustment + 1, file_lines.take index ++ file_lines.drop (index + 1))
  else none

/-- `handle_single_line_multiple_imports`: group the statement (escaped
continuation span, or the single comma-separated line), excise its lines,
then reinsert zero, one single-line, or one rebuilt multi-line import. -/
def handle_single_line_multiple_imports (unused_imports : List String) (index : Nat)
    (unused_import_line : String) (line_adjustment : Nat) (file_lines : List String) :
    Option (Nat × List String) :=
  let grouped : Option (List String × List String × Nat) :=
    if pyHasChar unused_import_line '\\' then
      match group_escaped_imports index file_lines with
      | none => none
      | some (mods, e) =>
        some (mods, file_lines.take index ++ file_lines.drop (e + 1),
          line_adjustment + (e - index))
    else
      match split_single_line_multi_imports unused_import_line with
      | none => none
      | some mods =>
        if index < file_lines.length then
          some (mods, file_lines.take index ++ file_lines.drop (index + 1),
            line_adjustment)
        else none
  match grouped with
  | none => none
  | some (imported_modules, fl1, adj1) =>
    match get_modules_to_keep imported_modules unused_imports with
    | [] => some (adj1 + 1, fl1)
    | m :: restKeep =>
      match base_import_match unused_import_line with
      | none => none
      | some (padding, base_import) =>
        let new_line :=
          if restKeep.isEmpty then padding ++ base_import ++ "import " ++ m ++ "\n"
          else build_multiline_import padding base_import (m :: restKeep)
        some (adj1, pyInsert index new_line fl1)

/-- `handle_multiline_imports`: group the parenthesized span, excise it,
and reinsert nothing, a shrunken single-line import (first line with its
`(\n` stripped plus the surviving symbol), or a rebuilt block; the
adjustment grows by the buffer's net length decrease. -/
def handle_multiline_imports (unused_imports : List String) (index : Nat)
    (unused_import_line : String) (line_adjustment : Nat) (file_lines : List String) :
    Option (Nat × List String) :=
  match group_multiline_imports index file_lines with
  | none => none
  | some (imported_modules, end_index) =>
    let old_length := file_lines.length
    let fl1 := file_lines.take index ++ file_lines.drop (end_index + 1)
    match get_modules_to_keep imported_modules unused_imports with
    | [] => some (line_adjustment + (old_length - fl1.length), fl1)
    | [m] =>
      let fl2 := pyInsert index (stripChars ['(', '\n'] unused_import_line ++ m ++ "\n") fl1
      some (line_adjustment + (old_length - fl2.length), fl2)
    | m :: restKeep =>
      match base_import_match unused_import_line with
      | none => none
      | some (padding, base_import) =>
        let fl2 := pyInsert index (build_multiline_import padding base_import (m :: restKeep)) fl1
        some (line_adjustment + (old_length - fl2.length), fl2)

/-! ### The per-file orchestrator (`remove_unused_imports_from_file`) -/

/-- One dispatch of the edit loop: a line with a comma goes to the
single-line-multiple handler, a line ending in `(\n` to the multiline
handler, a line matching `SINGLE_IMPORT_RE` against the first unused
symbol (`unused_imports[0]` raises on an empty list) to the single-line
handler, and anything else is silently left untouched. -/
def dispatch_edit (unused_imports : List String) (index : Nat)
    (unused_import_line : String) (line_adjustment : Nat) (file_lines : List String) :
    Option (Nat × List String) :=
  if (strSplitOn "," unused_import_line).length > 1 then
    handle_single_line_multiple_imports unused_imports index unused_import_line
      line_adjustment file_lines
  else if py_endswith unused_import_line "(\n" then
    handle_multiline_imports unused_imports index unused_import_line
      line_adjustment file_lines
  else
    match unused_imports with
    | [] => none
    | m :: _ =>
      if matches_single_import (pyStrip unused_import_line) m then
        handle_single_line_imports index line_adjustment file_lines
      else some (line_adjustment, file_lines)

/-- Group diagnostics by line number: a sorted, duplicate-free key list,
each key holding its unused symbols in arrival order (the `defaultdict`
plus `sorted(keys)` of the source). -/
def group_by_line (pairs : List (Nat × String)) : List (Nat × List String) :=
  (sortNats ((pairs.map Prod.fst).dedup)).map
    (fun k => (k, (pairs.filter (fun q => q.1 == k)).map Prod.snd))

/-- The edit loop: for each line number in ascending order compute the
index `line_num - 1 - line_adjustment` (a value that would be negative in
Python is modelled as a failure), fetch the line (`IndexError` — `none` —
when past the end) and dispatch. -/
def run_edits : List (Nat × List String) → Nat → List String → Option (Nat × List String)
  | [], line_adjustment, file_lines => some (line_adjustment, file_lines)
  | (line_num, unused) :: rest, line_adjustment, file_lines =>
    if 1 + line_adjustment ≤ line_num then
      match file_lines.get? (line_num - 1 - line_adjustment) with
      | none => none
      | some unused_import_line =>
        match dispatch_edit unused (line_num - 1 - line_adjustment) unused_import_line
            line_adjustment file_lines with
        | none => none
        | some (adj', fl') => run_edits rest adj' fl'
    else none

/-- `remove_unused_imports_from_file`, modelled on the file's contents:
given the path, the commit flag, the file's lines as read from disk and
the parsed `(line_number, symbol)` diagnostics, return the written-flag
and the resulting on-disk lines (`none` on an uncaught exception).
Aggregator `__init__.py` files are skipped before anything is read. -/
def remove_unused_imports_from_file (file_path : String) (commit_changes : Bool)
    (file_contents : List String) (unused_imports : List (Nat × String)) :
    Option (Bool × List String) :=
  if py_endswith file_path "__init__.py" then some (false, file_contents)
  else
    match run_edits (group_by_line unused_imports) 0 file_contents with
    | none => none
    | some (_, file_lines) =>
      if commit_changes then some (true, file_lines) else some (false, file_contents)

/-! ### Order facts about the Python string comparison -/

lemma strLtB_asymm : ∀ a b : List Char, strLtB a b = true → strLtB b a = false := by
  intro a
  induction a with
  | nil =>
    intro b h
    cases b with
    | nil => simp [strLtB] at h
    | cons y ys => simp [strLtB]
  | cons x xs ih =>
    intro b h
    cases b with
    | nil => simp [strLtB] at h
    | cons y ys =>
      simp only [strLtB] at h ⊢
      by_cases h1 : x.toNat < y.toNat
      · have h2 : ¬ y.toNat < x.toNat := by omega
        simp [h1, h2]
      · by_cases h2 : y.toNat < x.toNat
        · simp [h1, h2] at h
        · simp [h1, h2] at h ⊢
          exact ih ys h

lemma strLtB_resolve : ∀ c a b : List Char,
    strLtB c a = true → strLtB c b = true ∨ strLtB b a = true := by
  intro c
  induction c with
  | nil =>
    intro a b h
    cases a with
    | nil => simp [strLtB] at h
    | cons y ys =>
      cases b with
      | nil => right; simp [strLtB]
      | cons z zs => left; simp [strLtB]
  | cons x xs ih =>
    intro a b h
    cases a with
    | nil => simp [strLtB] at h
    | cons y ys =>
      cases b with
      | nil => right; simp [strLtB]
      | cons z zs =>
        simp only [strLtB] at h ⊢
        by_cases hxz : x.toNat < z.toNat
        · left; simp [hxz]
        · by_cases hzx : z.toNat < x.toNat
          · right
            have hxy : x.toNat ≤ y.toNat := by
              by_contra hc
              simp [show ¬ x.toNat < y.toNat by omega, show y.toNat < x.toNat by omega] at h
            simp [show z.toNat < y.toNat by omega]
          · by_cases hxy : x.toNat < y.toNat
            · right
              simp [show z.toNat < y.toNat by omega]
            · by_cases hyx : y.toNat < x.toNat
              · simp [hxy, hyx] at h
              · simp only [if_neg hxy, if_neg hyx] at h
                rcases ih ys zs h with h' | h'
                · left
                  simp [hxz, show ¬ z.toNat < x.toNat from hzx, h']
                · right
                  simp [show ¬ z.toNat < y.toNat by omega,
                    show ¬ y.toNat < z.toNat by omega, h']

lemma pyStrLe_total (a b : String) : pyStrLe a b = true ∨ pyStrLe b a = true := by
  unfold pyStrLe
  cases hba : strLtB b.data a.data with
  | false => left; simp
  | true => right; simp [strLtB_asymm _ _ hba]

lemma pyStrLe_trans (a b c : String) (h1 : pyStrLe a b = true) (h2 : pyStrLe b c = true) :
    pyStrLe a c = true := by
  unfold pyStrLe at h1 h2 ⊢
  cases hca : strLtB c.data a.data with
  | false => simp
  | true =>
    rcases strLtB_resolve c.data a.data b.data hca with h' | h'
    · simp [h'] at h2
    · simp [h'] at h1

instance : IsTotal String (fun a b => pyStrLe a b = true) := ⟨pyStrLe_total⟩

instance : IsTrans String (fun a b => pyStrLe a b = true) := ⟨pyStrLe_trans⟩

/-! ### Claim C9 -/

/-- Claim C9: for every list of imported symbols `S` and every list of
unused symbols `U` (no subset precondition), `get_modules_to_keep S U` is
the set difference `S − U` as a sorted, duplicate-free list: membership is
exactly `∈ S ∧ ∉ U`, the result has no duplicates, it is sorted by
Python's string order, and elements of `U` absent from `S` have no
effect. -/
theorem claim_C9_modules_to_keep (S U : List String) :
    (∀ x, x ∈ get_modules_to_keep S U ↔ (x ∈ S ∧ x ∉ U))
    ∧ (get_modules_to_keep S U).Nodup
    ∧ (get_modules_to_keep S U).Sorted (fun a b => pyStrLe a b = true)
    ∧ get_modules_to_keep S U = get_modules_to_keep S (U.filter (fun u => S.contains u)) := by
  refine ⟨?_, ?_, ?_, ?_⟩
  · intro x
    simp [get_modules_to_keep, sortStrings, List.mem_dedup, List.mem_filter]
  · exact ((List.perm_insertionSort _ _).nodup_iff).mpr (List.nodup_dedup _)
  · exact List.sorted_insertionSort _ _
  · unfold get_modules_to_keep
    congr 2
    apply List.filter_congr
    intro m hm
    have hc : ∀ V : List String, V.contains m = true ↔ m ∈ V := fun V => by simp
    have : (U.filter (fun u => S.contains u)).contains m = U.contains m := by
      rw [Bool.eq_iff_iff, hc, hc, List.mem_filter]
      constructor
      · exact fun h => h.1
      · intro h
        exact ⟨h, by simpa using hm⟩
    rw [this]

/-! ### Claim C2 -/

/-- Claim C2: `build_multiline_import` with empty padding, prefix
`from p `, and symbols `[a, c, b]` yields exactly the canonical sorted
parenthesized block; with 4-space padding every line is additionally
prefixed by it; and with an empty base prefix the output is always the
single bare `import` line of the sorted symbols joined by comma-space,
never a parenthesized block. -/
theorem claim_C2_build_multiline :
    build_multiline_import "" "from p " ["a", "c", "b"] =
      "from p import (\n    a,\n    b,\n    c,\n)\n"
    ∧ build_multiline_import "    " "from p " ["a", "c", "b"] =
      "    from p import (\n        a,\n        b,\n        c,\n    )\n"
    ∧ ∀ (padding : String) (imports : List String),
        build_multiline_import padding "" imports =
          "import " ++ joinSep ", " (sortStrings imports) ++ "\n" := by
  refine ⟨by decide, by decide, fun padding imports => by simp [build_multiline_import]⟩

/-! ### Claim C7 -/

/-- Claim C7: for every path ending in `__init__.py`,
`remove_unused_imports_from_file` returns immediately: nothing is written
and the on-disk contents are unchanged, for any diagnostics and any
commit flag. -/
theorem claim_C7_init_skip (file_path : String) (commit_changes : Bool)
    (file_contents : List String) (unused_imports : List (Nat × String))
    (h : py_endswith file_path "__init__.py" = true) :
    remove_unused_imports_from_file file_path commit_changes file_contents unused_imports =
      some (false, file_contents) := by
  simp [remove_unused_imports_from_file, h]

theorem claim_C7_witness :
    remove_unused_imports_from_file "pkg/__init__.py" true ["import os\n"] [(1, "os")] =
      some (false, ["import os\n"]) :=
  claim_C7_init_skip "pkg/__init__.py" true ["import os\n"] [(1, "os")] (by decide)

/-! ### Claim C3 -/

/-- Claim C3, counterexample: the rewrite path is not byte-for-byte
idempotent with `U = ∅`.  A parenthesized statement indented with three
spaces is replaced by the canonical 4-space block (as a single buffer
entry), so the statement's lines change even as concatenated text. -/
theorem claim_C3_counterexample :
    handle_multiline_imports [] 0 "from p import (\n" 0
        ["from p import (\n", "   a,\n", "   b,\n", ")\n"] =
      some (3, ["from p import (\n    a,\n    b,\n)\n"])
    ∧ ["from p import (\n    a,\n    b,\n)\n"] ≠
        ["from p import (\n", "   a,\n", "   b,\n", ")\n"]
    ∧ strJoin ["from p import (\n    a,\n    b,\n)\n"] ≠
        strJoin ["from p import (\n", "   a,\n", "   b,\n", ")\n"] :=
  ⟨by decide, by decide, by decide⟩

/-- Claim C3 as amended: with an empty unused set the *file-level* pass is
an exact no-op — `remove_unused_imports_from_file` with no diagnostics
leaves the buffer (and disk) unchanged byte for byte — while the
*handler-level* rewrite with `U = ∅` normalizes the statement to the
canonical shape, preserving the concatenated text only when the statement
is already canonical (sorted symbols, 4-space indent, trailing commas),
not its byte-for-byte line structure in general. -/
theorem claim_C3_empty_unused_noop :
    (∀ (file_path : String) (commit_changes : Bool) (file_contents : List String),
        remove_unused_imports_from_file file_path commit_changes file_contents [] =
          some (!(py_endswith file_path "__init__.py") && commit_changes, file_contents))
    ∧ handle_multiline_imports [] 0 "from p import (\n" 0
        ["from p import (\n", "    a,\n", "    b,\n", ")\n"] =
      some (3, ["from p import (\n    a,\n    b,\n)\n"])
    ∧ strJoin ["from p import (\n    a,\n    b,\n)\n"] =
        strJoin ["from p import (\n", "    a,\n", "    b,\n", ")\n"] := by
  refine ⟨?_, by decide, by decide⟩
  intro file_path commit_changes file_contents
  cases h : py_endswith file_path "__init__.py" with
  | true => simp [remove_unused_imports_from_file, h]
  | false =>
    cases commit_changes with
    | true =>
      simp [remove_unused_imports_from_file, h, group_by_line, sortNats,
        List.insertionSort, run_edits]
    | false =>
      simp [remove_unused_imports_from_file, h, group_by_line, sortNats,
        List.insertionSort, run_edits]

/-! ### Claim C6 -/

lemma unused_module_match_eq_none (s : String)
    (h : has_single_quoted_name s = false) : unused_module_match s = none := by
  unfold unused_module_match
  split
  · next rest heq =>
    unfold has_single_quoted_name at h
    rw [heq] at h
    simp at h
    simp [h]
  · rfl

/-- Claim C6: the diagnostic parser maps
`f.py:1: 'x' imported but unused` to `(f.py, 1, x)`; any line that does
not split on `:` into exactly three fields raises (is a failure); and a
three-field line whose third field carries no single-quoted name parses
with the symbol absent. -/
theorem claim_C6_parse_diagnostic (line p ln e : String) :
    ((strSplitOn ":" line).length ≠ 3 → parse_pyflake_unused_import_error line = none)
    ∧ (strSplitOn ":" line = [p, ln, e] → has_single_quoted_name (pyStrip e) = false →
        parse_pyflake_unused_import_error line = some (p, ln, none))
    ∧ parse_pyflake_unused_import_error "f.py:1: 'x' imported but unused" =
        some ("f.py", "1", some "x") := by
  refine ⟨?_, ?_, by decide⟩
  · intro h
    rcases hs : strSplitOn ":" line with _ | ⟨p1, _ | ⟨p2, _ | ⟨p3, _ | ⟨p4, rest⟩⟩⟩⟩
    · simp [parse_pyflake_unused_import_error, hs]
    · simp [parse_pyflake_unused_import_error, hs]
    · simp [parse_pyflake_unused_import_error, hs]
    · exact absurd (by simp [hs]) h
    · simp [parse_pyflake_unused_import_error, hs]
  · intro hs hq
    simp [parse_pyflake_unused_import_error, hs, unused_module_match_eq_none _ hq]

theorem claim_C6_witness :
    parse_pyflake_unused_import_error "f.py:12" = none
    ∧ parse_pyflake_unused_import_error "a: b : no name" = some ("a", " b ", none) :=
  ⟨(claim_C6_parse_diagnostic "f.py:12" "" "" "").1 (by decide),
   (claim_C6_parse_diagnostic "a: b : no name" "a" " b " " no name").2.1
     (by decide) (by decide)⟩

/-! ### Claim C8 -/

lemma gmi_scan_none (ls : List String) : ∀ i, (∀ x ∈ ls, pyStrip x ≠ ")") →
    gmi_scan ls i = none := by
  induction ls with
  | nil => intro i _; rfl
  | cons l rest ih =>
    intro i h
    have h1 : (pyStrip l == ")") = false := by
      have := h l (by simp)
      simpa using this
    simp [gmi_scan, h1, ih (i + 1) (fun x hx => h x (by simp [hx]))]

lemma ge_scan_none (ls : List String) : ∀ i, (∀ x ∈ ls, pyHasChar (pyStrip x) '\\' = true) →
    ge_scan ls i = none := by
  induction ls with
  | nil => intro i _; rfl
  | cons l rest ih =>
    intro i h
    simp [ge_scan, h l (by simp), ih (i + 1) (fun x hx => h x (by simp [hx]))]

/-- Claim C8: the two grouping scans are not bounded by the buffer length,
and each fails under its own condition.  If no line after the start strips
to `)`, the parenthesized scan runs past the end of the buffer and fails
(an uncaught out-of-range access) instead of returning a result; and
independently, if every line after the start still contains a backslash,
the escaped scan runs past the end and fails. -/
theorem claim_C8_unbounded_scan (start_index : Nat) (file_lines : List String) :
    ((∀ x ∈ file_lines.drop (start_index + 1), pyStrip x ≠ ")") →
      group_multiline_imports start_index file_lines = none)
    ∧ ((∀ x ∈ file_lines.drop (start_index + 1), pyHasChar (pyStrip x) '\\' = true) →
      group_escaped_imports start_index file_lines = none) := by
  constructor
  · intro h1
    exact gmi_scan_none _ _ h1
  · intro h2
    have hscan := ge_scan_none _ (start_index + 1) h2
    unfold group_escaped_imports
    split
    · rfl
    · split
      · rfl
      · rw [hscan]

theorem claim_C8_witness :
    group_multiline_imports 0 ["from p import (\n", "a\n"] = none
    ∧ group_escaped_imports 0 ["from p import a,\\\n", "b,\\\n"] = none :=
  ⟨(claim_C8_unbounded_scan 0 ["from p import (\n", "a\n"]).1 (by decide),
   (claim_C8_unbounded_scan 0 ["from p import a,\\\n", "b,\\\n"]).2 (by decide)⟩

/-! ### Claim C4 -/

lemma gmi_scan_append (pre : List String) (l : String) (post : List String)
    (hl : pyStrip l = ")") (hpre : ∀ x ∈ pre, pyStrip x ≠ ")") : ∀ i,
    gmi_scan (pre ++ l :: post) i =
      some (pre.map (fun s => stripChars [','] (pyStrip s)), i + pre.length) := by
  induction pre with
  | nil =>
    intro i
    simp [gmi_scan, hl]
  | cons x xs ih =>
    intro i
    have hx : (pyStrip x == ")") = false := by simpa using hpre x (by simp)
    simp [gmi_scan, hx, ih (fun y hy => hpre y (by simp [hy])) (i + 1)]
    omega

/-- Claim C4: `group_multiline_imports` at start index `i` collects, from
each line strictly between `i` and the first subsequent line whose
stripped content is `)`, that line's stripped, comma-stripped content as
one symbol, and returns the `)`-line's index as the end index, excluding
it from the symbol list. -/
theorem claim_C4_group_multiline (file_lines pre post : List String) (l : String)
    (start_index : Nat)
    (hsplit : file_lines.drop (start_index + 1) = pre ++ l :: post)
    (hl : pyStrip l = ")")
    (hpre : ∀ x ∈ pre, pyStrip x ≠ ")") :
    group_multiline_imports start_index file_lines =
      some (pre.map (fun s => stripChars [','] (pyStrip s)), start_index + 1 + pre.length) := by
  unfold group_multiline_imports
  rw [hsplit, gmi_scan_append pre l post hl hpre (start_index + 1)]

theorem claim_C4_witness :
    group_multiline_imports 1
        ["import m\n", "from p import (\n", "   a,\n", "   b,\n", ")\n", "\n", "import e\n"] =
      some (["a", "b"], 4)
    ∧ group_multiline_imports 0 ["from p import (\n", "    a\n", ")\n"] =
      some (["a"], 2) := by
  constructor
  · rw [claim_C4_group_multiline
      ["import m\n", "from p import (\n", "   a,\n", "   b,\n", ")\n", "\n", "import e\n"]
      ["   a,\n", "   b,\n"] ["\n", "import e\n"] ")\n" 1 (by decide) (by decide) (by decide)]
    decide
  · rw [claim_C4_group_multiline ["from p import (\n", "    a\n", ")\n"]
      ["    a\n"] [] ")\n" 0 (by decide) (by decide) (by decide)]
    decide

/-! ### Claim C5 -/

lemma ge_scan_append (pre : List String) (l : String) (post : List String)
    (hl : pyHasChar (pyStrip l) '\\' = false)
    (hpre : ∀ x ∈ pre, pyHasChar (pyStrip x) '\\' = true) : ∀ i,
    ge_scan (pre ++ l :: post) i =
      some (pre.map (fun s => stripChars [','] (clean_line (pyStrip s))) ++
        [stripChars [','] (pyStrip l)], i + pre.length) := by
  induction pre with
  | nil =>
    intro i
    simp [ge_scan, hl]
  | cons x xs ih =>
    intro i
    simp [ge_scan, hpre x (by simp), ih (fun y hy => hpre y (by simp [hy])) (i + 1)]
    omega

/-- Claim C5: `group_escaped_imports` at start index `i` extracts the
first line's comma-separated symbols after deleting whitespace and
backslashes, then scans continuation lines, each contributing its
comma-stripped content, terminating at the first line containing no
backslash, whose index is the end index and whose content is the final
symbol. -/
theorem claim_C5_group_escaped (file_lines pre post : List String) (first l : String)
    (mods : List String) (start_index : Nat)
    (hfirst : file_lines.get? start_index = some first)
    (hmods : split_single_line_multi_imports (clean_line first) = some mods)
    (hsplit : file_lines.drop (start_index + 1) = pre ++ l :: post)
    (hl : pyHasChar (pyStrip l) '\\' = false)
    (hpre : ∀ x ∈ pre, pyHasChar (pyStrip x) '\\' = true) :
    group_escaped_imports start_index file_lines =
      some (mods ++ (pre.map (fun s => stripChars [','] (clean_line (pyStrip s))) ++
        [stripChars [','] (pyStrip l)]), start_index + 1 + pre.length) := by
  simp only [group_escaped_imports, hfirst, hmods]
  rw [hsplit, ge_scan_append pre l post hl hpre (start_index + 1)]

theorem claim_C5_witness :
    group_escaped_imports 0 ["from p import a, b,\\\n", "   c\n"] =
      some (["a", "b", "c"], 1) := by
  rw [claim_C5_group_escaped ["from p import a, b,\\\n", "   c\n"] [] []
    "from p import a, b,\\\n" "   c\n" ["a", "b"] 0
    (by decide) (by decide) (by decide) (by decide) (by decide)]
  decide

/-! ### Span bounds of the groupers -/

lemma gmi_scan_bounds : ∀ (ls : List String) (i : Nat) (g : List String) (e : Nat),
    gmi_scan ls i = some (g, e) → i ≤ e ∧ e < i + ls.length := by
  intro ls
  induction ls with
  | nil =>
    intro i g e h
    simp [gmi_scan] at h
  | cons l rest ih =>
    intro i g e h
    unfold gmi_scan at h
    split at h
    · cases h
      simp
    · split at h
      · simp at h
      · rename_i g' e' heq
        cases h
        have := ih (i + 1) g' e heq
        constructor
        · omega
        · simp
          omega

lemma ge_scan_bounds : ∀ (ls : List String) (i : Nat) (g : List String) (e : Nat),
    ge_scan ls i = some (g, e) → i ≤ e ∧ e < i + ls.length := by
  intro ls
  induction ls with
  | nil =>
    intro i g e h
    simp [ge_scan] at h
  | cons l rest ih =>
    intro i g e h
    unfold ge_scan at h
    split at h
    · split at h
      · simp at h
      · rename_i g' e' heq
        cases h
        have := ih (i + 1) g' e heq
        constructor
        · omega
        · simp
          omega
    · cases h
      simp

lemma gmi_bounds (start_index : Nat) (file_lines : List String) (g : List String) (e : Nat)
    (h : group_multiline_imports start_index file_lines = some (g, e)) :
    start_index + 1 ≤ e ∧ e < file_lines.length := by
  unfold group_multiline_imports at h
  have hb := gmi_scan_bounds _ _ _ _ h
  have hlen : (file_lines.drop (start_index + 1)).length
      = file_lines.length - (start_index + 1) := List.length_drop _ _
  omega

lemma ge_bounds (start_index : Nat) (file_lines : List String) (g : List String) (e : Nat)
    (h : group_escaped_imports start_index file_lines = some (g, e)) :
    start_index + 1 ≤ e ∧ e < file_lines.length := by
  unfold group_escaped_imports at h
  split at h
  · simp at h
  · split at h
    · simp at h
    · split at h
      · simp at h
      · rename_i g' e' heq
        cases h
        have hb := ge_scan_bounds _ _ _ _ heq
        have hlen : (file_lines.drop (start_index + 1)).length
            = file_lines.length - (start_index + 1) := List.length_drop _ _
        omega

/-! ### Frame lemmas for the three edit handlers -/

lemma pyInsert_split (A B : List String) (x : String) (i : Nat) (hA : A.length = i) :
    pyInsert i x (A ++ B) = A ++ [x] ++ B := by
  subst hA
  unfold pyInsert
  rw [List.take_left, List.drop_left]
  simp

lemma take_len_eq (file_lines : List String) (i : Nat) (h : i ≤ file_lines.length) :
    (file_lines.take i).length = i := by
  simp [List.length_take]
  omega

lemma hsli_frame (index adj : Nat) (file_lines : List String) (adj' : Nat) (fl' : List String)
    (h : handle_single_line_imports index adj file_lines = some (adj', fl')) :
    index < file_lines.length
    ∧ fl' = file_lines.take index ++ file_lines.drop (index + 1)
    ∧ adj' = adj + 1 := by
  unfold handle_single_line_imports at h
  split at h
  · cases h
    exact ⟨by assumption, rfl, rfl⟩
  · simp at h
lemma hmi_frame (u : List String) (index : Nat) (line : String) (adj : Nat)
    (file_lines : List String) (adj' : Nat) (fl' : List String)
    (h : handle_multiline_imports u index line adj file_lines = some (adj', fl')) :
    ∃ g e mid, group_multiline_imports index file_lines = some (g, e)
      ∧ index + 1 ≤ e ∧ e < file_lines.length ∧ mid.length ≤ 1
      ∧ fl' = file_lines.take index ++ mid ++ file_lines.drop (e + 1)
      ∧ adj' + mid.length = adj + (e + 1 - index) := by
  unfold handle_multiline_imports at h
  split at h
  · simp at h
  · rename_i g e heq
    obtain ⟨he1, he2⟩ := gmi_bounds _ _ _ _ heq
    have hA : (file_lines.take index).length = index :=
      take_len_eq _ _ (by omega)
    have hlen1 : (file_lines.take index ++ file_lines.drop (e + 1)).length
        = index + (file_lines.length - (e + 1)) := by
      rw [List.length_append, hA, List.length_drop]
    split at h
    · simp only [Option.some.injEq, Prod.mk.injEq] at h
      obtain ⟨h1, h2⟩ := h
      rw [hlen1] at h1
      refine ⟨g, e, [], heq, he1, he2, by simp, by simp [h2.symm], ?_⟩
      simp only [List.length_nil]
      omega
    · rename_i m hkeep
      simp only [Option.some.injEq, Prod.mk.injEq] at h
      obtain ⟨h1, h2⟩ := h
      have hlen2 : (pyInsert index (stripChars ['(', '\n'] line ++ m ++ "\n")
          (file_lines.take index ++ file_lines.drop (e + 1))).length
          = index + (1 + (file_lines.length - (e + 1))) := by
        simp [pyInsert_split _ _ _ _ hA, hA]
        omega
      rw [hlen2] at h1
      refine ⟨g, e, [stripChars ['(', '\n'] line ++ m ++ "\n"], heq, he1, he2, by simp,
        ?_, ?_⟩
      · rw [← h2, pyInsert_split _ _ _ _ hA]
      · simp only [List.length_cons, List.length_nil]
        omega
    · rename_i m restKeep hne hkeep
      split at h
      · simp at h
      · rename_i padding base_import heqb
        simp only [Option.some.injEq, Prod.mk.injEq] at h
        obtain ⟨h1, h2⟩ := h
        have hlen2 : (pyInsert index (build_multiline_import padding base_import
            (m :: restKeep)) (file_lines.take index ++ file_lines.drop (e + 1))).length
            = index + (1 + (file_lines.length - (e + 1))) := by
          simp [pyInsert_split _ _ _ _ hA, hA]
          omega
        rw [hlen2] at h1
        refine ⟨g, e, [build_multiline_import padding base_import (m :: restKeep)],
          heq, he1, he2, by simp, ?_, ?_⟩
        · rw [← h2, pyInsert_split _ _ _ _ hA]
        · simp only [List.length_cons, List.length_nil]
          omega
lemma hslmi_frame (u : List String) (index : Nat) (line : String) (adj : Nat)
    (file_lines : List String) (adj' : Nat) (fl' : List String)
    (h : handle_single_line_multiple_imports u index line adj file_lines = some (adj', fl')) :
    ∃ e mid, index ≤ e ∧ e < file_lines.length ∧ mid.length ≤ 1
      ∧ fl' = file_lines.take index ++ mid ++ file_lines.drop (e + 1)
      ∧ adj' + mid.length = adj + (e + 1 - index)
      ∧ (pyHasChar line '\\' = true →
          ∃ g, group_escaped_imports index file_lines = some (g, e))
      ∧ (pyHasChar line '\\' = false → e = index) := by
  unfold handle_single_line_multiple_imports at h
  split at h
  · -- escaped-continuation branch
    rename_i hesc
    split at h
    · simp at h
    · rename_i mods e heq
      obtain ⟨he1, he2⟩ := ge_bounds _ _ _ _ heq
      have hA : (file_lines.take index).length = index :=
        take_len_eq _ _ (by omega)
      dsimp only at h
      split at h
      · -- keep empty
        simp only [Option.some.injEq, Prod.mk.injEq] at h
        obtain ⟨h1, h2⟩ := h
        refine ⟨e, [], by omega, he2, by simp, by simp [h2.symm], ?_, ?_, ?_⟩
        · simp only [List.length_nil]
          omega
        · intro _
          exact ⟨mods, heq⟩
        · intro hc
          rw [hesc] at hc
          cases hc
      · -- keep non-empty
        rename_i m restKeep hkeep
        split at h
        · simp at h
        · rename_i padding base_import heqb
          simp only [Option.some.injEq, Prod.mk.injEq] at h
          obtain ⟨h1, h2⟩ := h
          refine ⟨e, [if restKeep.isEmpty = true then
              padding ++ base_import ++ "import " ++ m ++ "\n"
            else build_multiline_import padding base_import (m :: restKeep)],
            by omega, he2, by simp, ?_, ?_, ?_, ?_⟩
          · rw [← h2, pyInsert_split _ _ _ _ hA]
          · simp only [List.length_cons, List.length_nil]
            omega
          · intro _
            exact ⟨mods, heq⟩
          · intro hc
            rw [hesc] at hc
            cases hc
  · -- single comma-separated line branch
    rename_i hesc
    have hesc' : pyHasChar line '\\' = false := by
      cases hv : pyHasChar line '\\'
      · rfl
      · exact absurd hv hesc
    split at h
    · simp at h
    · rename_i mods hsp
      split at h
      · -- index in range
        rename_i hidx
        have hA : (file_lines.take index).length = index :=
          take_len_eq _ _ (by omega)
        dsimp only at h
        split at h
        · -- keep empty
          simp only [Option.some.injEq, Prod.mk.injEq] at h
          obtain ⟨h1, h2⟩ := h
          refine ⟨index, [], le_refl _, hidx, by simp, by simp [h2.symm], ?_, ?_, ?_⟩
          · simp only [List.length_nil]
            omega
          · intro hc
            rw [hesc'] at hc
            cases hc
          · intro _
            rfl
        · -- keep non-empty
          rename_i m restKeep hkeep
          split at h
          · simp at h
          · rename_i padding base_import heqb
            simp only [Option.some.injEq, Prod.mk.injEq] at h
            obtain ⟨h1, h2⟩ := h
            refine ⟨index, [if restKeep.isEmpty = true then
                padding ++ base_import ++ "import " ++ m ++ "\n"
              else build_multiline_import padding base_import (m :: restKeep)],
              le_refl _, hidx, by simp, ?_, ?_, ?_, ?_⟩
            · rw [← h2, pyInsert_split _ _ _ _ hA]
            · simp only [List.length_cons, List.length_nil]
              omega
            · intro hc
              rw [hesc'] at hc
              cases hc
            · intro _
              rfl
      · simp at h

lemma drop_invariant_mono (lines orig : List String) (k adj m : Nat)
    (h : lines.drop k = orig.drop (k + adj)) (hm : k ≤ m) :
    lines.drop m = orig.drop (m + adj) := by
  have h1 : lines.drop m = (lines.drop k).drop (m - k) := by
    rw [List.drop_drop]
    congr 1
    omega
  rw [h1, h, List.drop_drop]
  congr 1
  omega

lemma dispatch_frame (u : List String) (index : Nat) (line : String) (adj : Nat)
    (file_lines : List String) (adj' : Nat) (fl' : List String)
    (h : dispatch_edit u index line adj file_lines = some (adj', fl')) :
    (adj' = adj ∧ fl' = file_lines)
    ∨ ∃ e mid, index ≤ e ∧ e < file_lines.length ∧ mid.length ≤ 1
        ∧ fl' = file_lines.take index ++ mid ++ file_lines.drop (e + 1)
        ∧ adj' + mid.length = adj + (e + 1 - index) := by
  unfold dispatch_edit at h
  split at h
  · right
    obtain ⟨e, mid, h1, h2, h3, h4, h5, _, _⟩ := hslmi_frame _ _ _ _ _ _ _ h
    exact ⟨e, mid, h1, h2, h3, h4, h5⟩
  · split at h
    · right
      obtain ⟨g, e, mid, _, he1, he2, h3, h4, h5⟩ := hmi_frame _ _ _ _ _ _ _ h
      exact ⟨e, mid, by omega, he2, h3, h4, h5⟩
    · split at h
      · simp at h
      · split at h
        · right
          obtain ⟨hlt, hfl, ha⟩ := hsli_frame _ _ _ _ _ h
          refine ⟨index, [], le_refl _, hlt, by simp, by simpa using hfl, ?_⟩
          simp only [List.length_nil]
          omega
        · left
          cases h
          exact ⟨rfl, rfl⟩

/-- Claim C10: every edit handler touches only the addressed statement's
span: all buffer lines strictly before the start index and strictly after
the statement's end index reappear unchanged, in order, around the (at
most one) replacement entry. -/
theorem claim_C10_handler_frame (u : List String) (index adj : Nat) (line : String)
    (file_lines fl' : List String) (adj' : Nat) :
    (handle_single_line_imports index adj file_lines = some (adj', fl') →
      ∃ mid, fl' = file_lines.take index ++ mid ++ file_lines.drop (index + 1))
    ∧ (∀ g e, group_multiline_imports index file_lines = some (g, e) →
        handle_multiline_imports u index line adj file_lines = some (adj', fl') →
        ∃ mid, fl' = file_lines.take index ++ mid ++ file_lines.drop (e + 1))
    ∧ (pyHasChar line '\\' = false →
        handle_single_line_multiple_imports u index line adj file_lines = some (adj', fl') →
        ∃ mid, fl' = file_lines.take index ++ mid ++ file_lines.drop (index + 1))
    ∧ (∀ g e, pyHasChar line '\\' = true →
        group_escaped_imports index file_lines = some (g, e) →
        handle_single_line_multiple_imports u index line adj file_lines = some (adj', fl') →
        ∃ mid, fl' = file_lines.take index ++ mid ++ file_lines.drop (e + 1)) := by
  refine ⟨?_, ?_, ?_, ?_⟩
  · intro h
    obtain ⟨_, hfl, _⟩ := hsli_frame _ _ _ _ _ h
    exact ⟨[], by simpa using hfl⟩
  · intro g e hg h
    obtain ⟨g2, e2, mid, hg2, _, _, _, hfl, _⟩ := hmi_frame _ _ _ _ _ _ _ h
    rw [hg] at hg2
    cases hg2
    exact ⟨mid, hfl⟩
  · intro hesc h
    obtain ⟨e, mid, _, _, _, hfl, _, _, hidx⟩ := hslmi_frame _ _ _ _ _ _ _ h
    rw [hidx hesc] at hfl
    exact ⟨mid, hfl⟩
  · intro g e hesc hge h
    obtain ⟨e2, mid, _, _, _, hfl, _, hg2, _⟩ := hslmi_frame _ _ _ _ _ _ _ h
    obtain ⟨g3, hg3⟩ := hg2 hesc
    rw [hge] at hg3
    cases hg3
    exact ⟨mid, hfl⟩

theorem claim_C10_witness :
    ∃ mid, ([] : List String) =
      List.take 0 ["import a\n"] ++ mid ++ List.drop 1 ["import a\n"] :=
  (claim_C10_handler_frame [] 0 0 "import a\n" ["import a\n"] [] 1).1 (by decide)

/-- Claim C1: in `remove_unused_imports_from_file`, edits are applied in
ascending original-line-number order (the grouped line-number keys are
strictly increasing), and one step of the edit loop preserves the offset
invariant: if the buffer's suffix from position `k` onward still agrees
with the original file shifted by the running adjustment (all previous
edits lay strictly below `k`), and the next edit's statement lies after
all previously edited spans, then the index `line_num - 1 - adjustment`
addresses exactly the line that originally carried that 1-based line
number, the dispatched edit grows the adjustment by exactly the net
decrease in buffer length (so it stays the original length minus the
current length), and the suffix invariant is re-established for the
subsequent edits. -/
theorem claim_C1_offset_invariant (pairs : List (Nat × String))
    (orig lines lines' : List String) (adj adj' k line_num : Nat)
    (unused : List String) (line : String)
    (hinv : lines.drop k = orig.drop (k + adj))
    (hlen : adj + lines.length = orig.length)
    (hln : 1 + adj ≤ line_num)
    (hafter : k + adj + 1 ≤ line_num)
    (hget : lines.get? (line_num - 1 - adj) = some line)
    (hdisp : dispatch_edit unused (line_num - 1 - adj) line adj lines = some (adj', lines')) :
    ((group_by_line pairs).map Prod.fst).Sorted (· < ·)
    ∧ orig.get? (line_num - 1) = some line
    ∧ adj' + lines'.length = adj + lines.length
    ∧ adj' + lines'.length = orig.length
    ∧ ∃ k', lines'.drop k' = orig.drop (k' + adj') := by
  have hsorted : ((group_by_line pairs).map Prod.fst).Sorted (· < ·) := by
    have hmap : (group_by_line pairs).map Prod.fst = sortNats ((pairs.map Prod.fst).dedup) := by
      unfold group_by_line
      rw [List.map_map]
      have hid : (Prod.fst ∘ fun k =>
          (k, (pairs.filter (fun q => q.1 == k)).map Prod.snd)) = id := rfl
      rw [hid, List.map_id]
    rw [hmap]
    have hs : (sortNats ((pairs.map Prod.fst).dedup)).Sorted (· ≤ ·) :=
      List.sorted_insertionSort _ _
    have hn : (sortNats ((pairs.map Prod.fst).dedup)).Nodup :=
      (List.perm_insertionSort _ _).nodup_iff.mpr (List.nodup_dedup _)
    exact hs.lt_of_le hn
  have hk : k ≤ line_num - 1 - adj := by omega
  have hdropi : lines.drop (line_num - 1 - adj) = orig.drop (line_num - 1 - adj + adj) :=
    drop_invariant_mono lines orig k adj _ hinv hk
  have haddr : orig.get? (line_num - 1) = some line := by
    have h1 : orig.get? (line_num - 1) = (orig.drop (line_num - 1 - adj + adj)).get? 0 := by
      rw [List.get?_drop]
      congr 1
      omega
    rw [h1, ← hdropi, List.get?_drop, Nat.add_zero]
    exact hget
  have hi_lt : line_num - 1 - adj < lines.length := by
    have := List.get?_eq_some.mp hget
    exact this.1
  rcases dispatch_frame _ _ _ _ _ _ _ hdisp with ⟨ha, hf⟩ | ⟨e, mid, h1, h2, h3, h4, h5⟩
  · subst ha
    subst hf
    exact ⟨hsorted, haddr, rfl, by omega, ⟨k, hinv⟩⟩
  · have hA : (lines.take (line_num - 1 - adj)).length = line_num - 1 - adj :=
      take_len_eq _ _ (by omega)
    have hlen' : lines'.length =
        (line_num - 1 - adj) + (mid.length + (lines.length - (e + 1))) := by
      rw [h4, List.length_append, List.length_append, hA, List.length_drop]
      omega
    have hdelta : adj' + lines'.length = adj + lines.length := by omega
    refine ⟨hsorted, haddr, hdelta, by omega, ⟨(line_num - 1 - adj) + mid.length, ?_⟩⟩
    have hsuffix : lines'.drop ((line_num - 1 - adj) + mid.length) = lines.drop (e + 1) := by
      rw [h4]
      have hlen2 : (lines.take (line_num - 1 - adj) ++ mid).length
          = (line_num - 1 - adj) + mid.length := by
        rw [List.length_append, hA]
      rw [← hlen2, List.drop_left]
    have hsuffix2 : lines.drop (e + 1) = orig.drop (e + 1 + adj) :=
      drop_invariant_mono lines orig k adj _ hinv (by omega)
    rw [hsuffix, hsuffix2]
    congr 1
    omega

theorem claim_C1_witness :
    (["from p import a, b\n"] : List String).get? 0 = some "from p import a, b\n"
    ∧ (0 : Nat) + (["from p import a\n"] : List String).length
        = 0 + (["from p import a, b\n"] : List String).length := by
  have h := claim_C1_offset_invariant [(1, "b")] ["from p import a, b\n"]
    ["from p import a, b\n"] ["from p import a\n"] 0 0 0 1 ["b"] "from p import a, b\n"
    (by decide) (by decide) (by decide) (by decide) (by decide) (by decide)
  exact ⟨h.2.1, h.2.2.1⟩
